/-
Verification of the OnChainDiary contracts (src/contracts/OnChainDiary.sol).

The source file holds two contract variants:
  * a per-user-indexed variant (saveDiary / getDiaryEntry / getDiariesInTimeRange /
    getUserDiaryCount / getLatestDiary), storing a list of entries per user;
  * an ACL-bearing variant (addEntry / getEntry / getEntryContent / getEntryAuthor /
    grantAccess / revokeAccess / entryExists / getTotalEntries / hasAccess), storing a
    global id-indexed map of entries with a per-entry access-control list.

Shallow embedding choices:
  * addresses are modelled as `Nat`; entry ids and timestamps as `Nat` (Solidity
    uint256 arithmetic here never exceeds 2^256 in reachable states: the id counter
    increments once per call, so overflow is unreachable and plain `Nat` is faithful);
  * an FHE ciphertext handle (euint256 / eaddress) is an opaque `Nat`; the external
    coprocessor call `FHE.fromExternal` is an oracle parameter
    `Nat → List Nat → Option Nat` (`none` models a rejected proof, which reverts);
    `FHE.allowThis` / `FHE.allow` are coprocessor-side effects outside contract
    storage and are not part of the contract state;
  * a Solidity `require` failure reverts the whole call; operations return
    `Except DiaryError α`, and the transaction wrapper `applyTx` keeps the pre-state
    on error, mirroring the EVM's atomic revert. In every source function all
    `require` checks and the `FHE.fromExternal` call precede every storage write.
-/
import Mathlib

namespace OnChainDiary

/-- Errors raised by `require` statements / the FHE coprocessor in the source. -/
inductive DiaryError where
  /-- Raised as "Entry does not exist". -/
  | entryDoesNotExist
  /-- Raised as "Access denied". -/
  | accessDenied
  /-- Raised as "Only authorized users can grant access". -/
  | onlyAuthorizedGrant
  /-- Raised as "Only authorized users can revoke access". -/
  | onlyAuthorizedRevoke
  /-- Raised when `FHE.fromExternal` rejects the ciphertext/proof pair. -/
  | invalidCiphertext
  /-- Raised as "Diary entry does not exist" (per-user-indexed variant). -/
  | diaryEntryDoesNotExist
  /-- Raised as "Invalid time range" (per-user-indexed variant). -/
  | invalidTimeRange
  /-- Raised as "No diary entries found" (per-user-indexed variant). -/
  | noDiaryEntries
deriving DecidableEq, Repr

/-- The coprocessor's `FHE.fromExternal(input, proof)`: `some handle` on success,
`none` when it rejects the proof (the call then reverts). -/
def Oracle : Type := Nat → List Nat → Option Nat

/-! ## ACL-bearing variant -/

/-- Embeds `struct DiaryEntry` of the ACL-bearing variant: `string content`,
`eaddress encryptedAuthor`, `uint256 timestamp`, `bool exists` (the Solidity
field `exists` is rendered `existsFlag`). -/
structure DiaryEntry where
  content : String
  encryptedAuthor : Nat
  timestamp : Nat
  existsFlag : Bool
deriving DecidableEq, Repr

/-- The zero value a Solidity mapping returns for a never-written key. -/
def defaultEntry : DiaryEntry :=
  { content := "", encryptedAuthor := 0, timestamp := 0, existsFlag := false }

/-- Contract storage of the ACL-bearing variant:
`mapping(uint256 => DiaryEntry) entries`, `uint256 nextEntryId`,
`mapping(uint256 => mapping(address => bool)) entryAccess`. -/
structure DiaryState where
  entries : Nat → DiaryEntry
  nextEntryId : Nat
  entryAccess : Nat → Nat → Bool

/-- State after the constructor: empty mappings, `nextEntryId = 1`. -/
def initialState : DiaryState :=
  { entries := fun _ => defaultEntry
    nextEntryId := 1
    entryAccess := fun _ _ => false }

/-- Embeds `addEntry(content, encryptedAuthorInput, inputProof)`: validates the ciphertext
via the coprocessor, allocates `entryId = nextEntryId++`, stores the record, and
grants the caller access. `ts` is `block.timestamp`. -/
def addEntry (oracle : Oracle) (s : DiaryState) (caller : Nat) (content : String)
    (encryptedAuthorInput : Nat) (inputProof : List Nat) (ts : Nat) :
    Except DiaryError (Nat × DiaryState) :=
  match oracle encryptedAuthorInput inputProof with
  | none => .error .invalidCiphertext
  | some encryptedAuthor =>
    let entryId := s.nextEntryId
    .ok (entryId,
      { entries := fun i =>
          if i = entryId then
            { content := content, encryptedAuthor := encryptedAuthor,
              timestamp := ts, existsFlag := true }
          else s.entries i
        nextEntryId := s.nextEntryId + 1
        entryAccess := fun i a =>
          if i = entryId ∧ a = caller then true else s.entryAccess i a })

/-- Embeds `getEntry(entryId)`: requires existence, then caller access; returns
`(content, encryptedAuthor, timestamp)`. -/
def getEntry (s : DiaryState) (caller : Nat) (entryId : Nat) :
    Except DiaryError (String × Nat × Nat) :=
  if (s.entries entryId).existsFlag = true then
    if s.entryAccess entryId caller = true then
      .ok ((s.entries entryId).content, (s.entries entryId).encryptedAuthor,
           (s.entries entryId).timestamp)
    else .error .accessDenied
  else .error .entryDoesNotExist

/-- Embeds `getEntryContent(entryId)`: same preconditions as `getEntry`; returns the content. -/
def getEntryContent (s : DiaryState) (caller : Nat) (entryId : Nat) :
    Except DiaryError String :=
  if (s.entries entryId).existsFlag = true then
    if s.entryAccess entryId caller = true then
      .ok (s.entries entryId).content
    else .error .accessDenied
  else .error .entryDoesNotExist

/-- Embeds `getEntryAuthor(entryId)`: same preconditions as `getEntry`; returns the
encrypted author handle. -/
def getEntryAuthor (s : DiaryState) (caller : Nat) (entryId : Nat) :
    Except DiaryError Nat :=
  if (s.entries entryId).existsFlag = true then
    if s.entryAccess entryId caller = true then
      .ok (s.entries entryId).encryptedAuthor
    else .error .accessDenied
  else .error .entryDoesNotExist

/-- Embeds `grantAccess(entryId, user)`: requires existence and that the caller is a
permitted reader; sets `entryAccess[entryId][user] = true`. -/
def grantAccess (s : DiaryState) (caller : Nat) (entryId : Nat) (user : Nat) :
    Except DiaryError DiaryState :=
  if (s.entries entryId).existsFlag = true then
    if s.entryAccess entryId caller = true then
      .ok { s with entryAccess := fun i a =>
              if i = entryId ∧ a = user then true else s.entryAccess i a }
    else .error .onlyAuthorizedGrant
  else .error .entryDoesNotExist

/-- Embeds `revokeAccess(entryId, user)`: requires existence and that the caller is a
permitted reader; sets `entryAccess[entryId][user] = false`. -/
def revokeAccess (s : DiaryState) (caller : Nat) (entryId : Nat) (user : Nat) :
    Except DiaryError DiaryState :=
  if (s.entries entryId).existsFlag = true then
    if s.entryAccess entryId caller = true then
      .ok { s with entryAccess := fun i a =>
              if i = entryId ∧ a = user then false else s.entryAccess i a }
    else .error .onlyAuthorizedRevoke
  else .error .entryDoesNotExist

/-- Embeds `entryExists(entryId)`: pure read of the existence flag (no `require`). -/
def entryExists (s : DiaryState) (entryId : Nat) : Bool :=
  (s.entries entryId).existsFlag

/-- Embeds `getTotalEntries()`: returns `nextEntryId - 1` (no `require`). -/
def getTotalEntries (s : DiaryState) : Nat :=
  s.nextEntryId - 1

/-- Embeds `hasAccess(entryId, user)`: pure read of the access table (no `require`). -/
def hasAccess (s : DiaryState) (entryId : Nat) (user : Nat) : Bool :=
  s.entryAccess entryId user

/-- A state-mutating transaction against the ACL-bearing contract. -/
inductive TxCall where
  | addEntry (caller : Nat) (content : String) (encryptedAuthorInput : Nat)
      (inputProof : List Nat) (ts : Nat)
  | grantAccess (caller : Nat) (entryId : Nat) (user : Nat)
  | revokeAccess (caller : Nat) (entryId : Nat) (user : Nat)

/-- Runs one transaction under the ledger's atomic-commit semantics: a reverted
call (any `Except.error`) leaves storage exactly as it was; a successful call
commits the whole new state. Returns the post-state and the error, if any. -/
def applyTx (oracle : Oracle) (s : DiaryState) (c : TxCall) :
    DiaryState × Option DiaryError :=
  match c with
  | .addEntry caller content ext proof ts =>
    match addEntry oracle s caller content ext proof ts with
    | .ok (_, s') => (s', none)
    | .error e => (s, some e)
  | .grantAccess caller entryId user =>
    match grantAccess s caller entryId user with
    | .ok s' => (s', none)
    | .error e => (s, some e)
  | .revokeAccess caller entryId user =>
    match revokeAccess s caller entryId user with
    | .ok s' => (s', none)
    | .error e => (s, some e)

/-- States reachable from the freshly-constructed contract by any sequence of
transactions (from any callers, with any coprocessor behaviour). -/
inductive Reachable : DiaryState → Prop
  | init : Reachable initialState
  | step (s : DiaryState) (oracle : Oracle) (c : TxCall) :
      Reachable s → Reachable (applyTx oracle s c).1

/-- States reachable from `s` using only `grantAccess` / `revokeAccess`
transactions (successful or reverted). -/
inductive GrantRevokeReach (s : DiaryState) : DiaryState → Prop
  | refl : GrantRevokeReach s s
  | grant (t : DiaryState) (oracle : Oracle) (caller entryId user : Nat) :
      GrantRevokeReach s t →
      GrantRevokeReach s (applyTx oracle t (.grantAccess caller entryId user)).1
  | revoke (t : DiaryState) (oracle : Oracle) (caller entryId user : Nat) :
      GrantRevokeReach s t →
      GrantRevokeReach s (applyTx oracle t (.revokeAccess caller entryId user)).1

/-! ## Per-user-indexed variant -/

/-- Embeds `struct DiaryEntry` of the per-user-indexed variant:
`euint256 encryptedIpfsHash`, `uint256 timestamp`.
(the per-user-indexed variant's record). -/
structure UserDiaryEntry where
  encryptedIpfsHash : Nat
  timestamp : Nat
deriving DecidableEq, Repr

/-- Contract storage of the per-user-indexed variant:
`mapping(address => DiaryEntry[]) userDiaries`, `mapping(address => uint256) diaryCount`. -/
structure UserDiaryState where
  userDiaries : Nat → List UserDiaryEntry
  diaryCount : Nat → Nat

/-- Fresh per-user-indexed contract: both mappings empty. -/
def initialUserState : UserDiaryState :=
  { userDiaries := fun _ => [], diaryCount := fun _ => 0 }

/-- Embeds `saveDiary(encryptedIpfsHash, inputProof)`: validates the ciphertext via the
coprocessor, appends the entry to the caller's list, increments the caller's
count. `ts` is `block.timestamp`. -/
def saveDiary (oracle : Oracle) (s : UserDiaryState) (caller : Nat)
    (encryptedIpfsHash : Nat) (inputProof : List Nat) (ts : Nat) :
    Except DiaryError UserDiaryState :=
  match oracle encryptedIpfsHash inputProof with
  | none => .error .invalidCiphertext
  | some validatedHash =>
    .ok { userDiaries := fun u =>
            if u = caller then
              s.userDiaries caller ++ [{ encryptedIpfsHash := validatedHash, timestamp := ts }]
            else s.userDiaries u
          diaryCount := fun u =>
            if u = caller then s.diaryCount caller + 1 else s.diaryCount u }

/-- Runs one `saveDiary` transaction with atomic revert on failure. -/
def applySaveDiary (oracle : Oracle) (s : UserDiaryState) (caller : Nat)
    (encryptedIpfsHash : Nat) (inputProof : List Nat) (ts : Nat) :
    UserDiaryState × Option DiaryError :=
  match saveDiary oracle s caller encryptedIpfsHash inputProof ts with
  | .ok s' => (s', none)
  | .error e => (s, some e)

/-- Embeds `getUserDiaryCount(user)`: returns `userDiaries[user].length` (no `require`). -/
def getUserDiaryCount (s : UserDiaryState) (user : Nat) : Nat :=
  (s.userDiaries user).length

/-- The second pass of `getDiariesInTimeRange`: walks the list with running
index `i`, collecting `(encryptedIpfsHash, timestamp, index)` of every entry
whose timestamp lies in `[startTime, endTime]`, in list order. -/
def collectInRange (startTime endTime : Nat) :
    List UserDiaryEntry → Nat → List Nat × List Nat × List Nat
  | [], _ => ([], [], [])
  | d :: rest, i =>
    let r := collectInRange startTime endTime rest (i + 1)
    if startTime ≤ d.timestamp ∧ d.timestamp ≤ endTime then
      (d.encryptedIpfsHash :: r.1, d.timestamp :: r.2.1, i :: r.2.2)
    else r

/-- Embeds `getDiariesInTimeRange(user, startTime, endTime)`: requires
`startTime <= endTime`, then returns the encrypted hashes, timestamps and
positions of the user's entries with timestamp in the inclusive range. (The
source's first counting pass only sizes the output arrays; the arrays' contents
are produced by the second pass, embedded as `collectInRange`.) -/
def getDiariesInTimeRange (s : UserDiaryState) (user startTime endTime : Nat) :
    Except DiaryError (List Nat × List Nat × List Nat) :=
  if startTime ≤ endTime then
    .ok (collectInRange startTime endTime (s.userDiaries user) 0)
  else .error .invalidTimeRange

/-! ## State invariant of the ACL-bearing variant -/

/-- Invariant of every reachable ACL-variant state: the id counter starts at 1,
an entry exists exactly when its id was issued (`1 ≤ i < nextEntryId`), and
access is only ever recorded for existing entries. -/
def Inv (s : DiaryState) : Prop :=
  1 ≤ s.nextEntryId ∧
  (∀ i, (s.entries i).existsFlag = true ↔ (1 ≤ i ∧ i < s.nextEntryId)) ∧
  (∀ i a, s.entryAccess i a = true → (s.entries i).existsFlag = true)

theorem inv_initialState : Inv initialState := by
  refine ⟨Nat.le_refl 1, ?_, ?_⟩
  · intro i
    simp only [initialState, defaultEntry]
    constructor
    · intro h; cases h
    · intro h; omega
  · intro i a h
    simp only [initialState] at h
    cases h

theorem addEntry_ok_iff (oracle : Oracle) (s : DiaryState) (caller : Nat)
    (content : String) (ext : Nat) (proof : List Nat) (ts : Nat) (id : Nat)
    (s' : DiaryState) :
    addEntry oracle s caller content ext proof ts = .ok (id, s') ↔
      ∃ ea, oracle ext proof = some ea ∧ id = s.nextEntryId ∧
        s' = { entries := fun i =>
                 if i = s.nextEntryId then
                   { content := content, encryptedAuthor := ea,
                     timestamp := ts, existsFlag := true }
                 else s.entries i
               nextEntryId := s.nextEntryId + 1
               entryAccess := fun i a =>
                 if i = s.nextEntryId ∧ a = caller then true else s.entryAccess i a } := by
  unfold addEntry
  cases h : oracle ext proof with
  | none =>
    simp [h]
  | some ea =>
    simp only [h, Option.some.injEq]
    constructor
    · intro hok
      refine ⟨ea, rfl, ?_, ?_⟩
      · exact (Prod.mk.injEq _ _ _ _ ▸ (Except.ok.injEq _ _ ▸ hok)).1.symm
      · exact (Prod.mk.injEq _ _ _ _ ▸ (Except.ok.injEq _ _ ▸ hok)).2.symm
    · rintro ⟨ea', hea, hid, hs⟩
      cases hea
      subst hid hs
      rfl

theorem inv_addEntry {oracle : Oracle} {s : DiaryState} {caller : Nat}
    {content : String} {ext : Nat} {proof : List Nat} {ts : Nat} {id : Nat}
    {s' : DiaryState} (hInv : Inv s)
    (h : addEntry oracle s caller content ext proof ts = .ok (id, s')) :
    Inv s' := by
  obtain ⟨h1, h2, h3⟩ := hInv
  obtain ⟨ea, -, hid, hs⟩ := (addEntry_ok_iff oracle s caller content ext proof ts id s').mp h
  subst hs
  refine ⟨?_, ?_, ?_⟩
  · show 1 ≤ s.nextEntryId + 1
    omega
  · intro i
    by_cases hi : i = s.nextEntryId
    · subst hi
      simpa using h1
    · simp only [hi, if_false]
      rw [h2 i]
      omega
  · intro i a ha
    by_cases hi : i = s.nextEntryId
    · subst hi; simp
    · simp [hi] at ha ⊢
      exact h3 i a ha

theorem inv_grantAccess {s : DiaryState} {caller entryId user : Nat}
    {s' : DiaryState} (hInv : Inv s)
    (h : grantAccess s caller entryId user = .ok s') : Inv s' := by
  obtain ⟨h1, h2, h3⟩ := hInv
  unfold grantAccess at h
  by_cases hex : (s.entries entryId).existsFlag = true
  · rw [if_pos hex] at h
    by_cases hacc : s.entryAccess entryId caller = true
    · rw [if_pos hacc] at h
      cases h
      refine ⟨h1, h2, ?_⟩
      intro i a ha
      simp only at ha
      by_cases hc : i = entryId ∧ a = user
      · exact hc.1 ▸ hex
      · rw [if_neg hc] at ha
        exact h3 i a ha
    · rw [if_neg hacc] at h; cases h
  · rw [if_neg hex] at h; cases h

theorem inv_revokeAccess {s : DiaryState} {caller entryId user : Nat}
    {s' : DiaryState} (hInv : Inv s)
    (h : revokeAccess s caller entryId user = .ok s') : Inv s' := by
  obtain ⟨h1, h2, h3⟩ := hInv
  unfold revokeAccess at h
  by_cases hex : (s.entries entryId).existsFlag = true
  · rw [if_pos hex] at h
    by_cases hacc : s.entryAccess entryId caller = true
    · rw [if_pos hacc] at h
      cases h
      refine ⟨h1, h2, ?_⟩
      intro i a ha
      simp only at ha
      by_cases hc : i = entryId ∧ a = user
      · rw [if_pos hc] at ha; cases ha
      · rw [if_neg hc] at ha
        exact h3 i a ha
    · rw [if_neg hacc] at h; cases h
  · rw [if_neg hex] at h; cases h

theorem inv_applyTx (oracle : Oracle) (s : DiaryState) (c : TxCall)
    (hInv : Inv s) : Inv (applyTx oracle s c).1 := by
  cases c with
  | addEntry caller content ext proof ts =>
    cases h : addEntry oracle s caller content ext proof ts with
    | ok p =>
      obtain ⟨id, s'⟩ := p
      simpa [applyTx, h] using inv_addEntry hInv h
    | error e => simpa [applyTx, h] using hInv
  | grantAccess caller entryId user =>
    cases h : grantAccess s caller entryId user with
    | ok s' => simpa [applyTx, h] using inv_grantAccess hInv h
    | error e => simpa [applyTx, h] using hInv
  | revokeAccess caller entryId user =>
    cases h : revokeAccess s caller entryId user with
    | ok s' => simpa [applyTx, h] using inv_revokeAccess hInv h
    | error e => simpa [applyTx, h] using hInv

theorem reachable_inv {s : DiaryState} (h : Reachable s) : Inv s := by
  induction h with
  | init => exact inv_initialState
  | step s oracle c _ ih => exact inv_applyTx oracle s c ih

theorem grantAccess_ok_iff (s : DiaryState) (caller entryId user : Nat)
    (s' : DiaryState) :
    grantAccess s caller entryId user = .ok s' ↔
      (s.entries entryId).existsFlag = true ∧ s.entryAccess entryId caller = true ∧
      s' = { s with entryAccess := fun i a =>
               if i = entryId ∧ a = user then true else s.entryAccess i a } := by
  unfold grantAccess
  by_cases hex : (s.entries entryId).existsFlag = true
  · by_cases hacc : s.entryAccess entryId caller = true
    · simp only [hex, hacc, if_true, Except.ok.injEq, true_and]
      exact eq_comm
    · simp [hex, hacc]
  · simp [hex]

theorem revokeAccess_ok_iff (s : DiaryState) (caller entryId user : Nat)
    (s' : DiaryState) :
    revokeAccess s caller entryId user = .ok s' ↔
      (s.entries entryId).existsFlag = true ∧ s.entryAccess entryId caller = true ∧
      s' = { s with entryAccess := fun i a =>
               if i = entryId ∧ a = user then false else s.entryAccess i a } := by
  unfold revokeAccess
  by_cases hex : (s.entries entryId).existsFlag = true
  · by_cases hacc : s.entryAccess entryId caller = true
    · simp only [hex, hacc, if_true, Except.ok.injEq, true_and]
      exact eq_comm
    · simp [hex, hacc]
  · simp [hex]

/-- Grant and revoke transactions never change `entries` or `nextEntryId`
(whether they succeed or revert). -/
theorem grantRevokeReach_frame {s t : DiaryState} (h : GrantRevokeReach s t) :
    t.entries = s.entries ∧ t.nextEntryId = s.nextEntryId := by
  induction h with
  | refl => exact ⟨rfl, rfl⟩
  | grant t oracle caller entryId user _ ih =>
    cases hg : grantAccess t caller entryId user with
    | ok t' =>
      obtain ⟨-, -, ht'⟩ := (grantAccess_ok_iff t caller entryId user t').mp hg
      subst ht'
      simpa [applyTx, hg] using ih
    | error e => simpa [applyTx, hg] using ih
  | revoke t oracle caller entryId user _ ih =>
    cases hg : revokeAccess t caller entryId user with
    | ok t' =>
      obtain ⟨-, -, ht'⟩ := (revokeAccess_ok_iff t caller entryId user t').mp hg
      subst ht'
      simpa [applyTx, hg] using ih
    | error e => simpa [applyTx, hg] using ih

/-! ## Concrete states used by witnesses and counterexamples -/

/-- A coprocessor that accepts every ciphertext/proof pair, returning handle 7. -/
def someOracle : Oracle := fun _ _ => some 7

/-- State after one `addEntry` by caller 0 with the example content, at
`block.timestamp = 100`. -/
def s1 : DiaryState :=
  (applyTx someOracle initialState
    (.addEntry 0 "Today was a great day!" 42 [] 100)).1

/-- State after caller 0 additionally revokes their own access to entry 1. -/
def s2 : DiaryState :=
  (applyTx someOracle s1 (.revokeAccess 0 1 0)).1

theorem s1_reachable : Reachable s1 :=
  Reachable.step initialState someOracle
    (.addEntry 0 "Today was a great day!" 42 [] 100) Reachable.init

theorem s2_reachable : Reachable s2 :=
  Reachable.step s1 someOracle (.revokeAccess 0 1 0) s1_reachable

/-! ## Claim theorems -/

/-- C1: In the ACL-bearing variant, immediately after a successful `addEntry`
call by caller `A` returning `id`, `hasAccess id A` is true, and for every
identity `B ≠ A` — none of which can have been granted access to the fresh `id`
— `hasAccess id B` is false. -/
theorem claim_C1 (oracle : Oracle) (s : DiaryState) (A : Nat) (content : String)
    (ext : Nat) (proof : List Nat) (ts : Nat) (id : Nat) (s' : DiaryState)
    (hreach : Reachable s)
    (hadd : addEntry oracle s A content ext proof ts = .ok (id, s')) :
    hasAccess s' id A = true ∧ ∀ B, B ≠ A → hasAccess s' id B = false := by
  obtain ⟨h1, h2, h3⟩ := reachable_inv hreach
  obtain ⟨ea, -, hid, hs⟩ :=
    (addEntry_ok_iff oracle s A content ext proof ts id s').mp hadd
  subst hs hid
  constructor
  · simp [hasAccess]
  · intro B hB
    simp only [hasAccess, eq_self_iff_true, true_and]
    rw [if_neg hB]
    cases hacc : s.entryAccess s.nextEntryId B with
    | false => rfl
    | true =>
      have := (h2 s.nextEntryId).mp (h3 _ _ hacc)
      omega

/-- C1 witness: in the concrete state after caller 0 creates entry 1, the
creator can read and identity 5 cannot. -/
theorem claim_C1_witness : hasAccess s1 1 0 = true ∧ hasAccess s1 1 5 = false := by
  have h := claim_C1 someOracle initialState 0 "Today was a great day!" 42 [] 100 1 s1
    Reachable.init rfl
  exact ⟨h.1, h.2 5 (by decide)⟩

/-- C2: for an existing entry and a caller without access, `getEntry`,
`getEntryContent` and `getEntryAuthor` all fail with the access-denied error and
return no data. -/
theorem claim_C2 (s : DiaryState) (C entryId : Nat)
    (hex : entryExists s entryId = true) (hacc : hasAccess s entryId C = false) :
    getEntry s C entryId = .error .accessDenied ∧
    getEntryContent s C entryId = .error .accessDenied ∧
    getEntryAuthor s C entryId = .error .accessDenied := by
  simp only [entryExists] at hex
  simp only [hasAccess] at hacc
  refine ⟨?_, ?_, ?_⟩ <;>
    simp [getEntry, getEntryContent, getEntryAuthor, hex, hacc]

/-- C2 witness: identity 5 has no access to entry 1 of the concrete state `s1`
and all three getters deny it. -/
theorem claim_C2_witness :
    getEntry s1 5 1 = .error .accessDenied ∧
    getEntryContent s1 5 1 = .error .accessDenied ∧
    getEntryAuthor s1 5 1 = .error .accessDenied :=
  claim_C2 s1 5 1 rfl rfl

/-- C4: the content stored by a successful `addEntry` is returned byte-for-byte
by `getEntry` / `getEntryContent` to any permitted caller, in any later state
reached from the creation state by grant/revoke transactions only (the only
mutators that can touch an entry after creation; they never modify `entries`). -/
theorem claim_C4 (oracle : Oracle) (s : DiaryState) (A : Nat) (content : String)
    (ext : Nat) (proof : List Nat) (ts : Nat) (id : Nat) (s' s'' : DiaryState)
    (C : Nat)
    (hadd : addEntry oracle s A content ext proof ts = .ok (id, s'))
    (hreach : GrantRevokeReach s' s'')
    (hacc : hasAccess s'' id C = true) :
    getEntryContent s'' C id = .ok content ∧
    (∃ ea tstamp, getEntry s'' C id = .ok (content, ea, tstamp)) := by
  obtain ⟨ea, -, hid, hs⟩ :=
    (addEntry_ok_iff oracle s A content ext proof ts id s').mp hadd
  obtain ⟨hentries, -⟩ := grantRevokeReach_frame hreach
  have hrec : s''.entries id =
      { content := content, encryptedAuthor := ea, timestamp := ts,
        existsFlag := true } := by
    rw [hentries, hs, hid]
    simp
  simp only [hasAccess] at hacc
  refine ⟨?_, ea, ts, ?_⟩ <;>
    simp [getEntryContent, getEntry, hrec, hacc]

/-- C4 witness: the example content round-trips through the concrete creation
state `s1` for the creator. -/
theorem claim_C4_witness :
    getEntryContent s1 0 1 = .ok "Today was a great day!" ∧
    (∃ ea tstamp, getEntry s1 0 1 = .ok ("Today was a great day!", ea, tstamp)) :=
  claim_C4 someOracle initialState 0 "Today was a great day!" 42 [] 100 1 s1 s1 0
    rfl GrantRevokeReach.refl rfl

/-- C5 counterexample: the claim "no sequence of grantAccess/revokeAccess calls
can leave a created entry with zero permitted readers" is false. In the
reachable state `s2` — caller 0 created entry 1 and then revoked their own
access (the source's `revokeAccess` only requires the caller to be permitted
and puts no restriction on the revokee, so self-revocation succeeds) — entry 1
exists and no identity at all has access. -/
theorem claim_C5_counterexample :
    Reachable s2 ∧ entryExists s2 1 = true ∧ ∀ a, hasAccess s2 1 a = false := by
  refine ⟨s2_reachable, rfl, ?_⟩
  intro a
  show (if 1 = 1 ∧ a = 0 then false
        else if 1 = 1 ∧ a = 0 then true else initialState.entryAccess 1 a) = false
  by_cases ha : a = 0
  · subst ha; rfl
  · have hc : ¬(1 = 1 ∧ a = 0) := fun h => ha h.2
    rw [if_neg hc, if_neg hc]
    rfl

/-- C5 (amended): immediately after a successful `addEntry`, the new entry has
at least one permitted reader, namely its creator. (The original claim's
"no grant/revoke sequence can leave zero permitted readers" does not hold:
`revokeAccess` allows a permitted caller to revoke anyone, including the
creator, as the counterexample shows.) -/
theorem claim_C5 (oracle : Oracle) (s : DiaryState) (A : Nat) (content : String)
    (ext : Nat) (proof : List Nat) (ts : Nat) (id : Nat) (s' : DiaryState)
    (hadd : addEntry oracle s A content ext proof ts = .ok (id, s')) :
    ∃ a, hasAccess s' id a = true := by
  obtain ⟨ea, -, hid, hs⟩ :=
    (addEntry_ok_iff oracle s A content ext proof ts id s').mp hadd
  subst hs hid
  exact ⟨A, by simp [hasAccess]⟩

/-- C5 witness: entry 1 of the concrete creation state `s1` has a permitted
reader. -/
theorem claim_C5_witness : ∃ a, hasAccess s1 1 a = true :=
  claim_C5 someOracle initialState 0 "Today was a great day!" 42 [] 100 1 s1 rfl

/-- C8: for an existing entry and a permitted caller, granting access to an
already-permitted identity returns a state equal to the input state, and
revoking access from an already-unpermitted identity likewise returns the
input state unchanged. -/
theorem claim_C8 (s : DiaryState) (caller entryId user : Nat)
    (hex : entryExists s entryId = true)
    (hcall : hasAccess s entryId caller = true) :
    (hasAccess s entryId user = true →
       grantAccess s caller entryId user = .ok s) ∧
    (hasAccess s entryId user = false →
       revokeAccess s caller entryId user = .ok s) := by
  simp only [entryExists] at hex
  simp only [hasAccess] at hcall
  constructor
  · intro hu
    simp only [hasAccess] at hu
    rw [grantAccess_ok_iff]
    refine ⟨hex, hcall, ?_⟩
    have hfun : (fun i a => if i = entryId ∧ a = user then true
        else s.entryAccess i a) = s.entryAccess := by
      funext i a
      by_cases hc : i = entryId ∧ a = user
      · rw [if_pos hc, hc.1, hc.2, hu]
      · rw [if_neg hc]
    rw [hfun]
  · intro hu
    simp only [hasAccess] at hu
    rw [revokeAccess_ok_iff]
    refine ⟨hex, hcall, ?_⟩
    have hfun : (fun i a => if i = entryId ∧ a = user then false
        else s.entryAccess i a) = s.entryAccess := by
      funext i a
      by_cases hc : i = entryId ∧ a = user
      · rw [if_pos hc, hc.1, hc.2, hu]
      · rw [if_neg hc]
    rw [hfun]

/-- C8 witness: on the concrete state `s1`, re-granting the creator's own
access and revoking the access of the never-granted identity 5 both leave the
state exactly as it was. -/
theorem claim_C8_witness :
    grantAccess s1 0 1 0 = .ok s1 ∧ revokeAccess s1 0 1 5 = .ok s1 :=
  ⟨(claim_C8 s1 0 1 0 rfl rfl).1 rfl, (claim_C8 s1 0 1 5 rfl rfl).2 rfl⟩

/-- C3: in every reachable ACL-variant state, `entryExists id` holds exactly
for `1 ≤ id ≤ getTotalEntries`; every successful `addEntry` bumps
`getTotalEntries` by exactly one and returns the id `getTotalEntries + 1`,
which is strictly greater than every previously existing id; and no
transaction ever destroys an existing entry. -/
theorem claim_C3 (s : DiaryState) (hreach : Reachable s) :
    (∀ i, entryExists s i = true ↔ (1 ≤ i ∧ i ≤ getTotalEntries s)) ∧
    (∀ oracle caller content ext proof ts id s',
       addEntry oracle s caller content ext proof ts = .ok (id, s') →
       getTotalEntries s' = getTotalEntries s + 1 ∧
       id = getTotalEntries s + 1 ∧
       ∀ j, entryExists s j = true → j < id) ∧
    (∀ oracle c i, entryExists s i = true →
       entryExists (applyTx oracle s c).1 i = true) := by
  obtain ⟨h1, h2, h3⟩ := reachable_inv hreach
  have hexiff : ∀ i, entryExists s i = true ↔ (1 ≤ i ∧ i ≤ getTotalEntries s) := by
    intro i
    rw [entryExists, h2 i, getTotalEntries]
    omega
  refine ⟨hexiff, ?_, ?_⟩
  · intro oracle caller content ext proof ts id s' hadd
    obtain ⟨ea, -, hid, hs⟩ :=
      (addEntry_ok_iff oracle s caller content ext proof ts id s').mp hadd
    subst hs hid
    refine ⟨?_, ?_, ?_⟩
    · show s.nextEntryId + 1 - 1 = s.nextEntryId - 1 + 1
      omega
    · show s.nextEntryId = s.nextEntryId - 1 + 1
      omega
    · intro j hj
      have := (hexiff j).mp hj
      simp only [getTotalEntries] at this
      omega
  · intro oracle c i hi
    simp only [entryExists] at hi ⊢
    cases c with
    | addEntry caller content ext proof ts =>
      cases h : addEntry oracle s caller content ext proof ts with
      | ok p =>
        obtain ⟨id, s'⟩ := p
        obtain ⟨ea, -, hid, hs⟩ :=
          (addEntry_ok_iff oracle s caller content ext proof ts id s').mp h
        subst hs
        simp only [applyTx, h]
        by_cases hii : i = s.nextEntryId
        · simp [hii]
        · simpa [hii] using hi
      | error e => simpa [applyTx, h] using hi
    | grantAccess caller entryId user =>
      cases h : grantAccess s caller entryId user with
      | ok s' =>
        obtain ⟨-, -, hs⟩ := (grantAccess_ok_iff s caller entryId user s').mp h
        subst hs
        simpa [applyTx, h] using hi
      | error e => simpa [applyTx, h] using hi
    | revokeAccess caller entryId user =>
      cases h : revokeAccess s caller entryId user with
      | ok s' =>
        obtain ⟨-, -, hs⟩ := (revokeAccess_ok_iff s caller entryId user s').mp h
        subst hs
        simpa [applyTx, h] using hi
      | error e => simpa [applyTx, h] using hi

/-- C3 witness: in the concrete one-entry state `s1`, entry 1 exists, entry 2
does not, a second `addEntry` bumps the total from 1 to 2 and returns id 2,
and entry 1 survives a revoke transaction. -/
theorem claim_C3_witness :
    (entryExists s1 1 = true ↔ (1 ≤ 1 ∧ 1 ≤ getTotalEntries s1)) ∧
    (getTotalEntries
       (applyTx someOracle s1 (.addEntry 3 "second" 9 [] 200)).1 =
       getTotalEntries s1 + 1) ∧
    entryExists (applyTx someOracle s1 (.revokeAccess 0 1 0)).1 1 = true := by
  have h := claim_C3 s1 s1_reachable
  refine ⟨(h.1) 1, ?_, (h.2.2) someOracle (.revokeAccess 0 1 0) 1 rfl⟩
  have h2 := (h.2.1) someOracle 3 "second" 9 [] 200 2
    (applyTx someOracle s1 (.addEntry 3 "second" 9 [] 200)).1 rfl
  exact h2.1

/-- C6 counterexample: the claim includes `hasAccess` among the reads that
"fail with the not-found error" on a nonexistent id, but the source's
`hasAccess` contains no existence check and no `require` at all: it is a total
read that simply returns the access-table value, `false`. Concretely, in the
initial state entry 1 does not exist yet `hasAccess(1, 0)` does not fail — it
returns `false`. -/
theorem claim_C6_counterexample :
    entryExists initialState 1 = false ∧ hasAccess initialState 1 0 = false :=
  ⟨rfl, rfl⟩

/-- C6 (amended): for every reachable state and id with `entryExists id` false,
`getEntry`, `getEntryContent` and `getEntryAuthor` fail with the not-found
error; `hasAccess` does not fail but returns `false` for every identity. -/
theorem claim_C6 (s : DiaryState) (hreach : Reachable s) (id : Nat)
    (hne : entryExists s id = false) (caller : Nat) :
    getEntry s caller id = .error .entryDoesNotExist ∧
    getEntryContent s caller id = .error .entryDoesNotExist ∧
    getEntryAuthor s caller id = .error .entryDoesNotExist ∧
    ∀ u, hasAccess s id u = false := by
  obtain ⟨-, -, h3⟩ := reachable_inv hreach
  simp only [entryExists] at hne
  have hne' : ¬(s.entries id).existsFlag = true := by simp [hne]
  refine ⟨?_, ?_, ?_, ?_⟩
  · simp [getEntry, hne']
  · simp [getEntryContent, hne']
  · simp [getEntryAuthor, hne']
  · intro u
    cases hacc : s.entryAccess id u with
    | false => exact hacc
    | true => exact absurd (h3 id u hacc) hne'

/-- C6 witness: in the initial state, id 1 does not exist: all three getters
report not-found to caller 0 and `hasAccess` is false for identity 7. -/
theorem claim_C6_witness :
    getEntry initialState 0 1 = .error .entryDoesNotExist ∧
    getEntryContent initialState 0 1 = .error .entryDoesNotExist ∧
    getEntryAuthor initialState 0 1 = .error .entryDoesNotExist ∧
    hasAccess initialState 1 7 = false := by
  have h := claim_C6 initialState Reachable.init 1 rfl 0
  exact ⟨h.1, h.2.1, h.2.2.1, h.2.2.2 7⟩

/-- C9: every failing state-mutating call — `addEntry`, `grantAccess`,
`revokeAccess` of the ACL-bearing variant and `saveDiary` of the
per-user-indexed variant — leaves the contract state exactly equal to the
pre-call state: no consumed id, no half-written record. (In each source
function every `require` and the `FHE.fromExternal` coprocessor call precede
every storage write, and the ledger reverts a failed call atomically, which
`applyTx` / `applySaveDiary` embed.) -/
theorem claim_C9 :
    (∀ (oracle : Oracle) (s : DiaryState) (c : TxCall) (e : DiaryError),
       (applyTx oracle s c).2 = some e → (applyTx oracle s c).1 = s) ∧
    (∀ (oracle : Oracle) (s : UserDiaryState) (caller hash : Nat)
       (proof : List Nat) (ts : Nat) (e : DiaryError),
       (applySaveDiary oracle s caller hash proof ts).2 = some e →
       (applySaveDiary oracle s caller hash proof ts).1 = s) := by
  constructor
  · intro oracle s c e hfail
    cases c with
    | addEntry caller content ext proof ts =>
      cases h : addEntry oracle s caller content ext proof ts with
      | ok p => simp [applyTx, h] at hfail
      | error e' => simp [applyTx, h]
    | grantAccess caller entryId user =>
      cases h : grantAccess s caller entryId user with
      | ok s' => simp [applyTx, h] at hfail
      | error e' => simp [applyTx, h]
    | revokeAccess caller entryId user =>
      cases h : revokeAccess s caller entryId user with
      | ok s' => simp [applyTx, h] at hfail
      | error e' => simp [applyTx, h]
  · intro oracle s caller hash proof ts e hfail
    cases h : saveDiary oracle s caller hash proof ts with
    | ok s' => simp [applySaveDiary, h] at hfail
    | error e' => simp [applySaveDiary, h]

/-- Whether a transaction can touch identity `B`'s access rights: `B` is the
caller of an `addEntry` (which grants the creator) or the target of a
`grantAccess` / `revokeAccess`. -/
def TxCall.involves (c : TxCall) (B : Nat) : Bool :=
  match c with
  | .addEntry caller _ _ _ _ => decide (caller = B)
  | .grantAccess _ _ user => decide (user = B)
  | .revokeAccess _ _ user => decide (user = B)

/-- C7: the pure reads `hasAccess`, `entryExists`, `getTotalEntries` and
`getUserDiaryCount` carry no `require` in the source — in the embedding they
are total functions into `Bool`/`Nat`, so they never fail — and they return the
defaults `false`, `false`, `0`, `0`: (i) on the freshly-constructed contracts
for every id/identity/owner; (ii) in every reachable ACL-variant state for
every unissued id; and (iii) an identity `B` not involved in a transaction, or
an owner `w` other than a `saveDiary` caller, keeps its prior (default) value
across that transaction. -/
theorem claim_C7 :
    (∀ i u, entryExists initialState i = false ∧
       hasAccess initialState i u = false) ∧
    getTotalEntries initialState = 0 ∧
    (∀ w, getUserDiaryCount initialUserState w = 0) ∧
    (∀ s, Reachable s → ∀ i, (i = 0 ∨ getTotalEntries s < i) →
       entryExists s i = false ∧ ∀ u, hasAccess s i u = false) ∧
    (∀ (oracle : Oracle) (s : DiaryState) (c : TxCall) (B : Nat),
       c.involves B = false →
       ∀ id, hasAccess (applyTx oracle s c).1 id B = hasAccess s id B) ∧
    (∀ (oracle : Oracle) (s : UserDiaryState) (caller hash : Nat)
       (proof : List Nat) (ts w : Nat), caller ≠ w →
       getUserDiaryCount (applySaveDiary oracle s caller hash proof ts).1 w =
         getUserDiaryCount s w) := by
  refine ⟨fun i u => ⟨rfl, rfl⟩, rfl, fun w => rfl, ?_, ?_, ?_⟩
  · intro s hreach i hi
    obtain ⟨h1, h2, h3⟩ := reachable_inv hreach
    simp only [getTotalEntries] at hi
    have hne : (s.entries i).existsFlag = false := by
      cases hx : (s.entries i).existsFlag with
      | false => rfl
      | true => have := (h2 i).mp hx; omega
    refine ⟨hne, ?_⟩
    intro u
    cases hacc : s.entryAccess i u with
    | false => exact hacc
    | true =>
      have := h3 i u hacc
      rw [hne] at this
      cases this
  · intro oracle s c B hinv id
    cases c with
    | addEntry caller content ext proof ts =>
      have hcb : caller ≠ B := by
        simpa [TxCall.involves] using hinv
      cases h : addEntry oracle s caller content ext proof ts with
      | ok p =>
        obtain ⟨nid, s'⟩ := p
        obtain ⟨ea, -, hid, hs⟩ :=
          (addEntry_ok_iff oracle s caller content ext proof ts nid s').mp h
        subst hs
        simp only [applyTx, h, hasAccess]
        rw [if_neg (fun hc => hcb hc.2.symm)]
      | error e => simp [applyTx, h]
    | grantAccess caller entryId user =>
      have hub : user ≠ B := by
        simpa [TxCall.involves] using hinv
      cases h : grantAccess s caller entryId user with
      | ok s' =>
        obtain ⟨-, -, hs⟩ := (grantAccess_ok_iff s caller entryId user s').mp h
        subst hs
        simp only [applyTx, h, hasAccess]
        rw [if_neg (fun hc => hub hc.2.symm)]
      | error e => simp [applyTx, h]
    | revokeAccess caller entryId user =>
      have hub : user ≠ B := by
        simpa [TxCall.involves] using hinv
      cases h : revokeAccess s caller entryId user with
      | ok s' =>
        obtain ⟨-, -, hs⟩ := (revokeAccess_ok_iff s caller entryId user s').mp h
        subst hs
        simp only [applyTx, h, hasAccess]
        rw [if_neg (fun hc => hub hc.2.symm)]
      | error e => simp [applyTx, h]
  · intro oracle s caller hash proof ts w hcw
    cases h : oracle hash proof with
    | none => simp [applySaveDiary, saveDiary, h]
    | some v =>
      simp only [applySaveDiary, saveDiary, h, getUserDiaryCount]
      rw [if_neg (fun hc => hcw hc.symm)]

/-- C7 witness: defaults on the fresh contracts; id 2 is unissued in the
concrete one-entry state `s1`; granting entry 1 to identity 4 does not change
identity 6's access; a save by caller 0 does not change owner 3's count. -/
theorem claim_C7_witness :
    (entryExists initialState 3 = false ∧ hasAccess initialState 3 4 = false) ∧
    getTotalEntries initialState = 0 ∧
    getUserDiaryCount initialUserState 9 = 0 ∧
    (entryExists s1 2 = false ∧ hasAccess s1 2 6 = false) ∧
    hasAccess (applyTx someOracle s1 (.grantAccess 0 1 4)).1 1 6 =
      hasAccess s1 1 6 ∧
    getUserDiaryCount (applySaveDiary someOracle initialUserState 0 5 [] 9).1 3 =
      getUserDiaryCount initialUserState 3 := by
  obtain ⟨d0, t0, u0, hunk, hpres, hsave⟩ := claim_C7
  refine ⟨d0 3 4, t0, u0 9, ?_, ?_, ?_⟩
  · have h := hunk s1 s1_reachable 2 (by right; decide)
    exact ⟨h.1, h.2 6⟩
  · exact hpres someOracle s1 (.grantAccess 0 1 4) 6 (by decide) 1
  · exact hsave someOracle initialUserState 0 5 [] 9 3 (by decide)

/-- C9 witness: a `grantAccess` on a nonexistent entry reverts and leaves the
initial ACL-variant state unchanged, and a `saveDiary` whose proof the
coprocessor rejects leaves the initial per-user state unchanged. -/
theorem claim_C9_witness :
    (applyTx someOracle initialState (.grantAccess 0 1 2)).1 = initialState ∧
    (applySaveDiary (fun _ _ => none) initialUserState 0 5 [] 9).1 =
      initialUserState :=
  ⟨claim_C9.1 someOracle initialState (.grantAccess 0 1 2)
      .entryDoesNotExist rfl,
   claim_C9.2 (fun _ _ => none) initialUserState 0 5 [] 9
      .invalidCiphertext rfl⟩

/-- The Boolean in-range test applied by both passes of
`getDiariesInTimeRange` to an indexed entry. -/
def inRange (startTime endTime : Nat) (p : Nat × UserDiaryEntry) : Bool :=
  decide (startTime ≤ p.2.timestamp) && decide (p.2.timestamp ≤ endTime)

/-- The indexed entries of `user` whose timestamp lies in
`[startTime, endTime]`, in list order — the reference result the loop of
`getDiariesInTimeRange` is proved to compute. -/
def matchedEntries (s : UserDiaryState) (user startTime endTime : Nat) :
    List (Nat × UserDiaryEntry) :=
  (s.userDiaries user).enum.filter (inRange startTime endTime)

theorem collectInRange_eq_filter (st et : Nat) (l : List UserDiaryEntry)
    (n : Nat) :
    collectInRange st et l n =
      (((List.enumFrom n l).filter (inRange st et)).map
         (fun p => p.2.encryptedIpfsHash),
       ((List.enumFrom n l).filter (inRange st et)).map (fun p => p.2.timestamp),
       ((List.enumFrom n l).filter (inRange st et)).map (fun p => p.1)) := by
  induction l generalizing n with
  | nil => rfl
  | cons d rest ih =>
    by_cases hc : st ≤ d.timestamp ∧ d.timestamp ≤ et
    · have hb : inRange st et (n, d) = true := by
        simp [inRange, hc.1, hc.2]
      simp [collectInRange, List.enumFrom, List.filter_cons, hb, if_pos hc, ih]
    · have hb : inRange st et (n, d) = false := by
        simp only [inRange, Bool.and_eq_false_iff, decide_eq_false_iff_not]
        omega
      simp [collectInRange, List.enumFrom, List.filter_cons, hb, if_neg hc, ih]

/-- C10: `getDiariesInTimeRange` reverts exactly when `startTime > endTime`;
otherwise it returns the encrypted hashes, timestamps and indices of precisely
the user's entries whose timestamp lies in the inclusive range — three lists
projected from one matched list (hence of equal length), with the index list
strictly increasing, and an indexed entry matched if and only if it sits at
that position of the user's diary list with an in-range timestamp. -/
theorem claim_C10 (s : UserDiaryState) (user startTime endTime : Nat) :
    (endTime < startTime →
       getDiariesInTimeRange s user startTime endTime =
         .error .invalidTimeRange) ∧
    (startTime ≤ endTime →
       getDiariesInTimeRange s user startTime endTime =
         .ok ((matchedEntries s user startTime endTime).map
                (fun p => p.2.encryptedIpfsHash),
              (matchedEntries s user startTime endTime).map
                (fun p => p.2.timestamp),
              (matchedEntries s user startTime endTime).map (fun p => p.1)) ∧
       ((matchedEntries s user startTime endTime).map
          (fun p => p.2.encryptedIpfsHash)).length =
         ((matchedEntries s user startTime endTime).map (fun p => p.1)).length ∧
       ((matchedEntries s user startTime endTime).map
          (fun p => p.2.timestamp)).length =
         ((matchedEntries s user startTime endTime).map (fun p => p.1)).length ∧
       List.Pairwise (· < ·)
         ((matchedEntries s user startTime endTime).map (fun p => p.1)) ∧
       (∀ i e, (i, e) ∈ matchedEntries s user startTime endTime ↔
          ((s.userDiaries user)[i]? = some e ∧
           startTime ≤ e.timestamp ∧ e.timestamp ≤ endTime))) := by
  constructor
  · intro hlt
    rw [getDiariesInTimeRange, if_neg (by omega)]
  · intro hle
    refine ⟨?_, ?_, ?_, ?_, ?_⟩
    · rw [getDiariesInTimeRange, if_pos hle, collectInRange_eq_filter]
      rfl
    · simp [matchedEntries]
    · simp [matchedEntries]
    · have hsub : List.Sublist
          ((matchedEntries s user startTime endTime).map (fun p => p.1))
          ((s.userDiaries user).enum.map (fun p => p.1)) :=
        List.Sublist.map _ (List.filter_sublist _)
      have hrange : (s.userDiaries user).enum.map (fun p => p.1) =
          List.range (s.userDiaries user).length := List.enum_map_fst _
      exact List.Pairwise.sublist (hrange ▸ hsub)
        (List.pairwise_lt_range _)
    · intro i e
      rw [matchedEntries, List.mem_filter, List.mk_mem_enum_iff_getElem?]
      simp [inRange]

/-- A coprocessor that returns the submitted handle unchanged. -/
def idOracle : Oracle := fun h _ => some h

/-- Per-user state after caller 0 saved three diaries with handles 11, 22, 33
at timestamps 5, 10, 15. -/
def u1a : UserDiaryState := (applySaveDiary idOracle initialUserState 0 11 [] 5).1

def u1b : UserDiaryState := (applySaveDiary idOracle u1a 0 22 [] 10).1

def u1 : UserDiaryState := (applySaveDiary idOracle u1b 0 33 [] 15).1

/-- C10 witness: on the concrete three-entry state `u1`, the query with
`startTime = 12 > endTime = 6` reverts, and the query over `[6, 12]` returns
exactly the middle entry with its index, in the characterized form. -/
theorem claim_C10_witness :
    getDiariesInTimeRange u1 0 12 6 = .error .invalidTimeRange ∧
    getDiariesInTimeRange u1 0 6 12 =
      .ok ((matchedEntries u1 0 6 12).map (fun p => p.2.encryptedIpfsHash),
           (matchedEntries u1 0 6 12).map (fun p => p.2.timestamp),
           (matchedEntries u1 0 6 12).map (fun p => p.1)) ∧
    ((1, { encryptedIpfsHash := 22, timestamp := 10 }) ∈
        matchedEntries u1 0 6 12 ↔
      ((u1.userDiaries 0)[1]? =
         some { encryptedIpfsHash := 22, timestamp := 10 } ∧
       6 ≤ 10 ∧ 10 ≤ 12)) := by
  refine ⟨(claim_C10 u1 0 12 6).1 (by decide), ?_, ?_⟩
  · exact ((claim_C10 u1 0 6 12).2 (by decide)).1
  · exact ((claim_C10 u1 0 6 12).2 (by decide)).2.2.2.2 1
      { encryptedIpfsHash := 22, timestamp := 10 }

end OnChainDiary
